import Mathlib

/-!
Verification development for the syntezator MIDI decoder and synthesizer.

The definitions below are a shallow embedding of the Rust sources:
`src/midi.rs` (byte cursor, file decoder), `src/synth.rs` (metadata
extractor and sample-buffer synthesizer) and `src/synth/web_audio.rs`
(event scheduler).  Machine integers are modelled as `Nat` with explicit
`% 2 ^ 32` where u32 overflow can occur; `std::time::Duration` values are
modelled as exact nanosecond counts (`Nat`), which is the representation
Rust uses internally — `Duration` addition, scalar multiplication and
scalar division are exact integer arithmetic in that domain; fallible
reads return `Option`/`Except`.

The program's f32 quantities are handled in two ways.  Sample values are
abstracted behind an evaluator parameter over an arbitrary field
(instantiated with `ℝ` where concrete sine values are needed).  The
f32-computed buffer length and per-event sample deltas of the
synthesizer are idealized as exact floor computations over the
nanosecond counts; the idealization agrees with the program wherever the
underlying f32 computations are exact — every concrete input evaluated
below is chosen so that they are — but it can differ from the program by
f32 rounding on other inputs, so no theorem below asserts the numeric
value of these quantities universally; universal statements about the
synthesizer are restricted to properties insensitive to them (buffer
shapes, channel lookups, degenerate cases).
-/

namespace Syntezator

/-! ## Byte cursor (`BigEndianReader`, src/midi.rs lines 6-81)

The reader owns a byte buffer (`List Nat`, each element a u8 value) and a
read position.  Every operation returns the optional result together with
the reader state after the call, mirroring Rust's `&mut self` threading. -/

structure BigEndianReader where
  buffer : List Nat
  pointer : Nat
deriving DecidableEq, Repr

namespace BigEndianReader

/-- Embeds `left_bytes` (midi.rs line 19): `buffer.len() - pointer`, with
`Nat` truncated subtraction matching usize behaviour under the invariant
`pointer ≤ buffer.len()`. -/
def left_bytes (r : BigEndianReader) : Nat :=
  r.buffer.length - r.pointer

/-- Embeds `read_n_bytes` (midi.rs lines 23-31): if at least `n` bytes
remain, yield the next `n` bytes and advance the position by `n`;
otherwise yield `none` and leave the reader unchanged. -/
def read_n_bytes (r : BigEndianReader) (n : Nat) : Option (List Nat) × BigEndianReader :=
  if n ≤ r.left_bytes then
    (some ((r.buffer.drop r.pointer).take n), ⟨r.buffer, r.pointer + n⟩)
  else
    (none, r)

/-- Embeds `read_u8` (midi.rs lines 33-35). -/
def read_u8 (r : BigEndianReader) : Option Nat × BigEndianReader :=
  match r.read_n_bytes 1 with
  | (some bs, r') => (some (bs.getD 0 0), r')
  | (none, r') => (none, r')

/-- Embeds `read_u16` (midi.rs lines 37-41): big-endian combination
`bytes[0] << 8 | bytes[1]`. -/
def read_u16 (r : BigEndianReader) : Option Nat × BigEndianReader :=
  match r.read_n_bytes 2 with
  | (some bs, r') => (some ((bs.getD 0 0) <<< 8 ||| bs.getD 1 0), r')
  | (none, r') => (none, r')

/-- Embeds `read_u32` (midi.rs lines 43-50): big-endian combination of
four bytes. -/
def read_u32 (r : BigEndianReader) : Option Nat × BigEndianReader :=
  match r.read_n_bytes 4 with
  | (some bs, r') =>
      (some ((bs.getD 0 0) <<< 24 ||| (bs.getD 1 0) <<< 16 |||
             (bs.getD 2 0) <<< 8 ||| bs.getD 3 0), r')
  | (none, r') => (none, r')

/-- Embeds `read_range` (midi.rs lines 78-80). -/
def read_range (r : BigEndianReader) (n : Nat) : Option (List Nat) × BigEndianReader :=
  r.read_n_bytes n

/-- Loop body of `read_var_length` (midi.rs lines 60-76), unrolled over
the remaining iteration count of the `for _ in 0..4` loop.  The value
accumulator is a u32, so the shift result is reduced `% 2 ^ 32` (the
addition cannot overflow because the accumulator is always a multiple of
128 there, but the reduction is written out to match u32 semantics). -/
def readVarLoop : Nat → Nat → BigEndianReader → Option Nat × BigEndianReader
  | 0, value, r => (some value, r)
  | fuel + 1, value, r =>
    match r.read_u8 with
    | (some byte, r') =>
        if byte &&& 0x80 = 0 then
          (some ((value + byte) % 2 ^ 32), r')
        else
          readVarLoop fuel (((value + (byte &&& 0x7F)) <<< 7) % 2 ^ 32) r'
    | (none, r') => (none, r')

/-- Embeds `read_var_length` (midi.rs lines 60-76): up to four
continuation-flagged bytes. -/
def read_var_length (r : BigEndianReader) : Option Nat × BigEndianReader :=
  readVarLoop 4 0 r

end BigEndianReader

/-- The standard MIDI variable-length-quantity encoding of a value
`v < 2 ^ 28`: at most four bytes, seven payload bits per byte, every byte
but the last carrying the continuation bit `0x80`.  This is the encoder
side of the round-trip property of spec section 8; it does not exist in
the source and is written from the standard (spec sections 4.1 and the
glossary). -/
def encodeVarLength (v : Nat) : List Nat :=
  if v < 2 ^ 7 then [v]
  else if v < 2 ^ 14 then [2 ^ 7 + v / 2 ^ 7, v % 2 ^ 7]
  else if v < 2 ^ 21 then
    [2 ^ 7 + v / 2 ^ 14, 2 ^ 7 + v / 2 ^ 7 % 2 ^ 7, v % 2 ^ 7]
  else
    [2 ^ 7 + v / 2 ^ 21, 2 ^ 7 + v / 2 ^ 14 % 2 ^ 7,
     2 ^ 7 + v / 2 ^ 7 % 2 ^ 7, v % 2 ^ 7]

/-! ## File decoder data model (src/midi.rs lines 83-323) -/

/-- Embeds `MIDIFileError` (midi.rs lines 83-97). -/
inductive MIDIFileError where
  | HeaderMismatch
  | HeaderSizeMismatch
  | UnsupportedType
  | InvalidTrackCount
  | InvalidTimeDivision
  | InvalidSMPTEValue
  | InvalidTrackChunk
  | InvalidEvent
  | InvalidTrackEventType
  | UnsupportedEvent
  | InvalidMetaEvent
  | UnexpectedMetaLength (event_type : Nat) (event_length : Nat)
deriving DecidableEq, Repr

/-- Embeds `SMPTE` (midi.rs lines 100-105); the Rust variant names
`_24`, `_25`, `_29_97`, `_30` are spelt `s24` and so on here. -/
inductive SMPTE where
  | s24
  | s25
  | s29_97
  | s30
deriving DecidableEq, Repr

/-- Embeds `TimeDivision` (midi.rs lines 107-110); `TicksPerBit` holds a
u16, `FramesPerSecond` an SMPTE code and a u16 tick count. -/
inductive TimeDivision where
  | TicksPerBit (ticks : Nat)
  | FramesPerSecond (smpte : SMPTE) (ticks : Nat)
deriving DecidableEq, Repr

/-- Embeds `Tempo` (midi.rs lines 210-214): a microseconds-per-quarter-note
scalar. -/
structure Tempo where
  mpqn : Nat
deriving DecidableEq, Repr

/-- Embeds `Tempo::from_bpm` (midi.rs lines 302-308). -/
def Tempo.from_bpm (bpm : Nat) : Tempo :=
  ⟨60000000 / bpm⟩

/-- Embeds `Tempo::default` (midi.rs lines 319-323): 120 BPM, i.e.
500000 microseconds per quarter note. -/
def Tempo.default : Tempo :=
  Tempo.from_bpm 120

/-- Embeds `ChannelEvent` (midi.rs lines 132-182): each variant carries
its delta time, channel number and two data bytes. -/
inductive ChannelEvent where
  | NoteOff (delta_time channel note velocity : Nat)
  | NoteOn (delta_time channel note velocity : Nat)
  | NoteAftertouch (delta_time channel note aftertouch : Nat)
  | Controller (delta_time channel controller_number controller_value : Nat)
  | ProgramChange (delta_time channel program_number reserved : Nat)
  | ChannelAftertouch (delta_time channel aftertouch reserved : Nat)
  | PitchBend (delta_time channel lsb msb : Nat)
deriving DecidableEq, Repr

/-- Embeds `MetaEvent` (midi.rs lines 216-289).  Note that no variant
carries a delta time. -/
inductive MetaEvent where
  | SequenceNumber (msb lsb : Nat)
  | TextEvent (text : List Nat)
  | CopyrightNotice (text : List Nat)
  | SequenceTrackName (text : List Nat)
  | InstrumentName (text : List Nat)
  | Lyrics (text : List Nat)
  | Marker (text : List Nat)
  | CuePoint (text : List Nat)
  | ChannelPrefix (channel : Nat)
  | EndOfTrack
  | SetTempo (tempo : Tempo)
  | SMPTEOffset (hour min sec fs sub_fr : Nat)
  | TimeSignature (number denom metro thirtySeconds : Nat)
  | KeySignature (key : Int) (scale : Nat)
  | UnknownEvent (event_type : Nat) (data : List Nat)
  | SequencerSpecific (data : List Nat)
deriving DecidableEq, Repr

/-- Embeds `MIDIEvent` (midi.rs lines 291-295). -/
inductive MIDIEvent where
  | Channel (e : ChannelEvent)
  | Meta (m : MetaEvent)
deriving DecidableEq, Repr

/-- Embeds `MIDIEvent::from_track_event` (midi.rs lines 326-385): the
high status nibble selects the channel-event kind, any other nibble is
`InvalidTrackEventType`. -/
def MIDIEvent.from_track_event (delta_time event_type channel param1 param2 : Nat) :
    Except MIDIFileError MIDIEvent :=
  match event_type with
  | 0x8 => .ok (.Channel (.NoteOff delta_time channel param1 param2))
  | 0x9 => .ok (.Channel (.NoteOn delta_time channel param1 param2))
  | 0xA => .ok (.Channel (.NoteAftertouch delta_time channel param1 param2))
  | 0xB => .ok (.Channel (.Controller delta_time channel param1 param2))
  | 0xC => .ok (.Channel (.ProgramChange delta_time channel param1 param2))
  | 0xD => .ok (.Channel (.ChannelAftertouch delta_time channel param1 param2))
  | 0xE => .ok (.Channel (.PitchBend delta_time channel param1 param2))
  | _ => .error .InvalidTrackEventType

open BigEndianReader in
/-- Shared shape of the text-family branches of `from_meta_event`
(midi.rs lines 414-468): read `event_length` payload bytes and wrap them
in the given variant. -/
def readTextMeta (r : BigEndianReader) (event_length : Nat)
    (mk : List Nat → MetaEvent) : Except MIDIFileError (MIDIEvent × BigEndianReader) :=
  match r.read_range event_length with
  | (some bytes, r') => .ok (.Meta (mk bytes), r')
  | (none, _) => .error .InvalidMetaEvent

open BigEndianReader in
/-- Embeds `MIDIEvent::from_meta_event` (midi.rs lines 387-557): read the
meta type byte and var-length payload length, then dispatch.  The
function receives no delta time and the produced `MetaEvent` stores
none. -/
def MIDIEvent.from_meta_event (r : BigEndianReader) :
    Except MIDIFileError (MIDIEvent × BigEndianReader) :=
  match r.read_u8 with
  | (none, _) => .error .InvalidMetaEvent
  | (some event_type, r1) =>
    match r1.read_var_length with
    | (none, _) => .error .InvalidMetaEvent
    | (some event_length, r2) =>
      match event_type with
      | 0x00 =>
        if event_length ≠ 2 then .error (.UnexpectedMetaLength event_type event_length)
        else
          match r2.read_u8 with
          | (none, _) => .error .InvalidMetaEvent
          | (some msb, r3) =>
            match r3.read_u8 with
            | (none, _) => .error .InvalidMetaEvent
            | (some lsb, r4) => .ok (.Meta (.SequenceNumber msb lsb), r4)
      | 0x01 => readTextMeta r2 event_length .TextEvent
      | 0x02 => readTextMeta r2 event_length .CopyrightNotice
      | 0x03 => readTextMeta r2 event_length .SequenceTrackName
      | 0x04 => readTextMeta r2 event_length .InstrumentName
      | 0x05 => readTextMeta r2 event_length .Lyrics
      | 0x06 => readTextMeta r2 event_length .Marker
      | 0x07 => readTextMeta r2 event_length .CuePoint
      | 0x20 =>
        if event_length ≠ 1 then .error (.UnexpectedMetaLength event_type event_length)
        else
          match r2.read_u8 with
          | (none, _) => .error .InvalidMetaEvent
          | (some channel, r3) => .ok (.Meta (.ChannelPrefix channel), r3)
      | 0x2F =>
        if event_length ≠ 0 then .error (.UnexpectedMetaLength event_type event_length)
        else .ok (.Meta .EndOfTrack, r2)
      | 0x51 =>
        if event_length ≠ 3 then .error (.UnexpectedMetaLength event_type event_length)
        else
          match r2.read_range 3 with
          | (none, _) => .error .InvalidMetaEvent
          | (some bytes, r3) =>
            .ok (.Meta (.SetTempo ⟨(bytes.getD 0 0) <<< 16 ||| (bytes.getD 1 0) <<< 8 |||
                                   bytes.getD 2 0⟩), r3)
      | 0x54 =>
        if event_length ≠ 5 then .error (.UnexpectedMetaLength event_type event_length)
        else
          match r2.read_range 5 with
          | (none, _) => .error .InvalidMetaEvent
          | (some bytes, r3) =>
            .ok (.Meta (.SMPTEOffset (bytes.getD 0 0) (bytes.getD 1 0) (bytes.getD 2 0)
                                     (bytes.getD 3 0) (bytes.getD 4 0)), r3)
      | 0x7F =>
        match r2.read_range event_length with
        | (none, _) => .error .InvalidMetaEvent
        | (some bytes, r3) => .ok (.Meta (.SequencerSpecific bytes), r3)
      | _ =>
        match r2.read_range event_length with
        | (none, _) => .error .InvalidMetaEvent
        | (some bytes, r3) => .ok (.Meta (.UnknownEvent event_type bytes), r3)

/-- Embeds `MIDITrack` (midi.rs lines 560-562). -/
structure MIDITrack where
  events : List MIDIEvent
deriving DecidableEq, Repr

open BigEndianReader in
/-- The event loop of `MIDITrack::new` (midi.rs lines 582-614), written
with explicit fuel: each iteration that recurses strictly advances the
sub-reader, so `track_buffer.length + 1` fuel is always sufficient and
the `fuel = 0` case is unreachable from `MIDITrack.new`; it is mapped to
the same `InvalidEvent` error as a failed read. -/
def trackLoop : Nat → BigEndianReader → List MIDIEvent →
    Except MIDIFileError (List MIDIEvent)
  | 0, _, _ => .error .InvalidEvent
  | fuel + 1, r, events =>
    match r.read_var_length with
    | (none, _) => .error .InvalidEvent
    | (some delta_time, r1) =>
      match r1.read_u8 with
      | (none, _) => .error .InvalidEvent
      | (some type_byte, r2) =>
        if type_byte = 0xFF then
          match MIDIEvent.from_meta_event r2 with
          | .error e => .error e
          | .ok (event, r3) =>
            if event = .Meta .EndOfTrack then .ok (events ++ [event])
            else trackLoop fuel r3 (events ++ [event])
        else if type_byte = 0xF0 then .error .UnsupportedEvent
        else
          match r2.read_u8 with
          | (none, _) => .error .InvalidEvent
          | (some param1, r3) =>
            match r3.read_u8 with
            | (none, _) => .error .InvalidEvent
            | (some param2, r4) =>
              match MIDIEvent.from_track_event delta_time ((0xF0 &&& type_byte) >>> 4)
                  (0x0F &&& type_byte) param1 param2 with
              | .error e => .error e
              | .ok event => trackLoop fuel r4 (events ++ [event])

open BigEndianReader in
/-- Embeds `MIDITrack::new` (midi.rs lines 569-617): check the `MTrk`
magic, read the chunk length, scope a sub-reader to exactly that many
bytes and run the event loop. -/
def MIDITrack.new (r : BigEndianReader) :
    Except MIDIFileError (MIDITrack × BigEndianReader) :=
  match r.read_range 4 with
  | (o, r1) =>
    if o ≠ some [0x4D, 0x54, 0x72, 0x6B] then .error .InvalidTrackChunk
    else
      match r1.read_u32 with
      | (none, _) => .error .InvalidTrackChunk
      | (some chunk_size, r2) =>
        match r2.read_range chunk_size with
        | (none, _) => .error .InvalidTrackChunk
        | (some track_buffer, r3) =>
          match trackLoop (track_buffer.length + 1) ⟨track_buffer, 0⟩ [] with
          | .error e => .error e
          | .ok events => .ok (⟨events⟩, r3)

/-- Embeds `MIDIFileData` (midi.rs lines 620-624). -/
structure MIDIFileData where
  num_tracks : Nat
  tracks : List MIDITrack
  time_division : TimeDivision
deriving DecidableEq, Repr

/-- Embeds `MIDIFileData::parse_time_division` (midi.rs lines 639-654). -/
def MIDIFileData.parse_time_division (value : Nat) :
    Except MIDIFileError TimeDivision :=
  if value &&& 0x8000 = 0 then
    .ok (.TicksPerBit (value &&& 0x7FFF))
  else
    match (value &&& 0x7F00) >>> 8 with
    | 24 => .ok (.FramesPerSecond .s24 (value &&& 0x00FF))
    | 25 => .ok (.FramesPerSecond .s25 (value &&& 0x00FF))
    | 29 => .ok (.FramesPerSecond .s29_97 (value &&& 0x00FF))
    | 30 => .ok (.FramesPerSecond .s30 (value &&& 0x00FF))
    | _ => .error .InvalidSMPTEValue

/-- The `for _ in 0..num_tracks` loop of `try_from` (midi.rs lines
681-684). -/
def tracksLoop : Nat → BigEndianReader → List MIDITrack →
    Except MIDIFileError (List MIDITrack × BigEndianReader)
  | 0, r, acc => .ok (acc, r)
  | n + 1, r, acc =>
    match MIDITrack.new r with
    | .error e => .error e
    | .ok (track, r') => tracksLoop n r' (acc ++ [track])

open BigEndianReader in
/-- Embeds `TryFrom<&[u8]> for MIDIFileData` (midi.rs lines 660-692):
validate the `MThd` magic, the header length 6 and the format type
(which the source compares against `Some(0u16)`), then read the track
count and time division and parse that many track chunks. -/
def MIDIFileData.tryFrom (buffer : List Nat) : Except MIDIFileError MIDIFileData :=
  match read_range ⟨buffer, 0⟩ 4 with
  | (o, r1) =>
    if o ≠ some [0x4D, 0x54, 0x68, 0x64] then .error .HeaderMismatch
    else
      match r1.read_u32 with
      | (o2, r2) =>
        if o2 ≠ some 6 then .error .HeaderSizeMismatch
        else
          match r2.read_u16 with
          | (o3, r3) =>
            if o3 ≠ some 0 then .error .UnsupportedType
            else
              match r3.read_u16 with
              | (none, _) => .error .InvalidTrackCount
              | (some num_tracks, r4) =>
                match r4.read_u16 with
                | (none, _) => .error .InvalidTimeDivision
                | (some td_value, r5) =>
                  match MIDIFileData.parse_time_division td_value with
                  | .error e => .error e
                  | .ok time_division =>
                    match tracksLoop num_tracks r5 [] with
                    | .error e => .error e
                    | .ok (tracks, _) => .ok ⟨num_tracks, tracks, time_division⟩

/-! ## Event model used by the synthesizer and scheduler

The synthesizer sources (src/synth.rs, src/synth/mod.rs,
src/synth/web_audio.rs) consume MIDI events through `event.kind()`,
`event.delta_time()` and `channel_event.kind()` / `.channel()` of a
`midi` module revision that is not among the source files (the midi.rs
in the tree is an earlier revision whose meta events drop the delta
time).  The event types below are therefore modelled from the spec:
an Event is `{deltaTime, kind}` where kind is a channel event (carrying
a channel number and the kind-specific data bytes) or a meta event
(spec section 3, "Event").  `MetaEvent` is shared with the decoder
embedding above. -/

/-- Modelled from the spec: the kind of a channel event, with the same
seven variants and data bytes as `ChannelEvent` of midi.rs but without
the embedded delta time and channel. -/
inductive ChannelEventKind where
  | NoteOff (note velocity : Nat)
  | NoteOn (note velocity : Nat)
  | NoteAftertouch (note aftertouch : Nat)
  | Controller (controller_number controller_value : Nat)
  | ProgramChange (program_number reserved : Nat)
  | ChannelAftertouch (aftertouch reserved : Nat)
  | PitchBend (lsb msb : Nat)
deriving DecidableEq, Repr

/-- Modelled from the spec: a channel event, `channel number 0-15` plus
the kind-specific data. -/
structure ChannelEventK where
  channel : Nat
  kind : ChannelEventKind
deriving DecidableEq, Repr

/-- Modelled from the spec: the tagged kind of an event. -/
inductive MIDIEventKind where
  | Channel (e : ChannelEventK)
  | Meta (m : MetaEvent)
deriving DecidableEq, Repr

/-- Modelled from the spec: `Event = {deltaTime, kind}`. -/
structure MIDIEventK where
  deltaTime : Nat
  kind : MIDIEventKind
deriving DecidableEq, Repr

/-- Modelled from the spec: the whole-file model consumed by the
synthesizer, a time division and the ordered track list. -/
structure MIDIFileDataK where
  time_division : TimeDivision
  tracks : List (List MIDIEventK)
deriving DecidableEq, Repr

/-! ## Timing model (`TimeDivision::tick_duration`, midi.rs lines 112-129)

Durations are exact nanosecond counts.  `Duration::from_micros(mpqn) / ticks`
is exact nanosecond division truncated at the nanosecond, i.e.
`(mpqn * 1000) / ticks` in `Nat`.  For SMPTE mode the source computes
`(fps * ticks as f32) as u32`; 24, 25 and 30 are exact in f32 and the f32
constant `29.97` has the exact value `15712911 / 524288`, so the cast is
the floor of `fpsValue * ticks` (the f32 product rounding is idealized
away). -/

/-- The u32 divisor of `Duration::from_secs(1) / (fps * ticks as f32) as u32`
(midi.rs line 126), idealized as the exact floor of the product of the
frame-rate value and the subframe tick count.  The program's f32
multiplication rounds the product before the `as u32` truncation, so the
two can differ (at `s29_97` with 100 ticks the f32 product rounds up to
2997.0 and the program truncates to 2997 while this exact floor gives
2996); no theorem below depends on the numeric value of the SMPTE
branch. -/
def SMPTE.ticksFactor : SMPTE → Nat → Nat
  | .s24, ticks => 24 * ticks
  | .s25, ticks => 25 * ticks
  | .s29_97, ticks => 15712911 * ticks / 524288
  | .s30, ticks => 30 * ticks

/-- The scalar the source divides a `Duration` by inside `tick_duration`;
Rust's `Duration` division panics when it is zero. -/
def TimeDivision.tickDivisor : TimeDivision → Nat
  | .TicksPerBit ticks => ticks
  | .FramesPerSecond smpte ticks => smpte.ticksFactor ticks

/-- Embeds `TimeDivision::tick_duration` (midi.rs lines 112-129) in
nanoseconds: `from_micros(mpqn) / ticks` for ticks-per-quarter-note mode
(exact — Rust `Duration` division by a u32 is integer division truncated
at the nanosecond) and `1 second / (fps * ticks)` for SMPTE mode, whose
divisor is the idealized `SMPTE.ticksFactor`. -/
def TimeDivision.tickDurationNs (td : TimeDivision) (tempo : Tempo) : Nat :=
  match td with
  | .TicksPerBit ticks => tempo.mpqn * 1000 / ticks
  | .FramesPerSecond smpte ticks => 1000000000 / smpte.ticksFactor ticks

/-- Rust `Duration` division (`impl Div<u32> for Duration`) is
`checked_div(rhs).expect(..)`: a zero divisor is a panic.  This checked
variant of `tickDurationNs` returns `none` exactly when `tick_duration`
panics, i.e. when the time division's tick divisor is zero. -/
def TimeDivision.tickDurationNsChecked (td : TimeDivision) (tempo : Tempo) : Option Nat :=
  if td.tickDivisor = 0 then none else some (td.tickDurationNs tempo)

/-! ## Track metadata extractor (`MidiMeta`, src/synth.rs lines 13-88;
the identical `MidiMetadata` lives in src/synth/mod.rs lines 28-106)

The per-track pass collects the distinct channels of channel events into
a `HashSet` and accumulates the duration, stopping at `EndOfTrack`.
`channels.into_iter().collect::<Vec<_>>()` drains the hash set in an
order the standard library does not specify (and which varies between
runs because the hasher is randomly seeded); the drain is modelled by a
function parameter `drain` applied to the first-seen-order list of the
collected channels, quantified over in the theorems. -/

/-- HashSet insertion on the first-seen-order representation of the
channel set: append the channel if it is not yet present. -/
def pushChannel (chs : List Nat) (c : Nat) : List Nat :=
  if c ∈ chs then chs else chs ++ [c]

/-- The per-track loop of `MidiMeta::new` (synth.rs lines 50-73):
returns the accumulated duration (nanoseconds) and the collected
channels in first-seen order.  The duration gains
`tick_duration * delta_time` for every event before the event is
dispatched, so the `EndOfTrack` delta is counted before the break, and a
`SetTempo` event changes the tick duration only for later events. -/
def metaTrackFold (td : TimeDivision) : List MIDIEventK → Nat → Nat → List Nat →
    Nat × List Nat
  | [], _, durNs, chs => (durNs, chs)
  | e :: rest, tickNs, durNs, chs =>
    let d := durNs + tickNs * e.deltaTime
    match e.kind with
    | .Channel ce => metaTrackFold td rest tickNs d (pushChannel chs ce.channel)
    | .Meta .EndOfTrack => (d, chs)
    | .Meta (.SetTempo tempo) => metaTrackFold td rest (td.tickDurationNs tempo) d chs
    | .Meta _ => metaTrackFold td rest tickNs d chs

/-- Embeds `MidiTrackMeta` (synth.rs lines 13-18): the dense channel
index vector and the track duration in nanoseconds. -/
structure MidiTrackMeta where
  channel_idx : List Nat
  durationNs : Nat
deriving DecidableEq, Repr

/-- Embeds `MidiTrackMeta::channel_index` (synth.rs lines 28-34):
`position` of the channel in the index vector.  The source `expect`s on
a missing channel; `List.indexOf` returns the list length there, and the
panic is tracked separately by the safety checker. -/
def MidiTrackMeta.channel_index (m : MidiTrackMeta) (channel : Nat) : Nat :=
  m.channel_idx.indexOf channel

/-- Embeds `MidiMeta` (synth.rs lines 36-39). -/
structure MidiMeta where
  tracks : List MidiTrackMeta
deriving DecidableEq, Repr

/-- Embeds `MidiMeta::new` (synth.rs lines 41-79), with the hash-set
drain order supplied as the `drain` parameter. -/
def MidiMeta.new (drain : List Nat → List Nat) (data : MIDIFileDataK) : MidiMeta :=
  ⟨data.tracks.map fun events =>
    let init := data.time_division.tickDurationNs Tempo.default
    let fold := metaTrackFold data.time_division events init 0 []
    ⟨drain fold.2, fold.1⟩⟩

/-- Embeds `MidiMeta::total_duration` (synth.rs lines 81-88): the
maximum of the per-track durations, 0 when there are no tracks. -/
def MidiMeta.total_durationNs (m : MidiMeta) : Nat :=
  (m.tracks.map MidiTrackMeta.durationNs).foldr max 0

/-! ## Sample-buffer synthesizer (`MidiSynth::create_buffer`, src/synth.rs
lines 109-226)

Sample values are elements of an arbitrary field `α`, produced by an
evaluator `sval note sampleIdx`; the program instantiates the evaluator
with `SineWave::new(note.frequency()).value(sampleIdx / sample_rate)`
(synth.rs lines 156-160), which is idealized over `ℝ` below.  The cursor
and length arithmetic is f32 in the program — `samples_per_tick` is
`(sample_rate * tick_duration).as_secs_f32()` and the per-event
`sample_delta = (delta_time as f32 * samples_per_tick) as usize`
(synth.rs line 145) — and is idealized here as the exact
`delta * (rate * tickNs) / 10 ^ 9` with `Nat` floor division.  The
idealization agrees with the program where the f32 computations are
exact (every concrete input below is chosen so) but can differ by f32
rounding elsewhere, so universal theorems use these quantities only in
ways insensitive to their numeric value. -/

/-- The running `active_notes : HashMap<usize, HashSet<MidiNote>>` of
`create_buffer` (synth.rs line 142), as an association list from channel
buffer index to the note list in insertion order. -/
abbrev ActiveNotes := List (Nat × List Nat)

/-- The note set of one channel entry, empty when the channel has no
entry. -/
def ActiveNotes.notesAt (active : ActiveNotes) (idx : Nat) : List Nat :=
  match active.find? (fun p => p.1 = idx) with
  | some p => p.2
  | none => []

/-- NoteOn handling (synth.rs lines 184-191):
`active_notes.entry(idx).or_default().insert(note)` — create the entry if
missing, then set-insert the note. -/
def ActiveNotes.insertNote (active : ActiveNotes) (idx note : Nat) : ActiveNotes :=
  if active.any (fun p => p.1 = idx) then
    active.map fun p =>
      if p.1 = idx then (p.1, if note ∈ p.2 then p.2 else p.2 ++ [note]) else p
  else
    active ++ [(idx, [note])]

/-- NoteOff handling (synth.rs lines 175-183):
`if let Some(notes) = active_notes.get_mut(&idx) { notes.remove(&note) }` —
remove the note from an existing entry, keeping the (possibly empty)
entry itself. -/
def ActiveNotes.removeNote (active : ActiveNotes) (idx note : Nat) : ActiveNotes :=
  active.map fun p => if p.1 = idx then (p.1, p.2.erase note) else p

/-- The channel-event dispatch of `create_buffer` (synth.rs lines
170-199): NoteOn inserts into, NoteOff removes from, the channel's
active set (velocity unused in both, see the source TODO); the other
five kinds are logged and ignored. -/
def applyChannelK (chIdx : List Nat) (active : ActiveNotes) (ce : ChannelEventK) :
    ActiveNotes :=
  let idx := chIdx.indexOf ce.channel
  match ce.kind with
  | .NoteOff note _ => active.removeNote idx note
  | .NoteOn note _ => active.insertNote idx note
  | _ => active

/-- One channel buffer's mixed sample value (synth.rs lines 153-164):
the sum of the evaluator over the channel's active notes divided by
`(active_notes.len() as f32).max(1.0)` — the number of entries of the
whole map, not the size of the channel's note set. -/
def noteMix {α : Type} [Field α] (sval : Nat → Nat → α) (notes : List Nat)
    (divisor : Nat) (i : Nat) : α :=
  (notes.map fun n => sval n i).sum / (divisor : α)

/-- Writes `v i` at every index `i` of `[cursor, cursor + sd)` of the
buffer, leaving other samples unchanged; `start` is the index of the
first element of `buf`.  This is the slice fill of synth.rs lines
149-166; in the program an out-of-range slice is a panic, while this
model drops writes past the end of the buffer, so it is used only for
statements (buffer shape, degenerate inputs) that do not depend on
whether such a write occurs. -/
def fillFrom {α : Type} (v : Nat → α) (cursor sd : Nat) : Nat → List α → List α
  | _, [] => []
  | i, x :: xs =>
      (if cursor ≤ i ∧ i < cursor + sd then v i else x) :: fillFrom v cursor sd (i + 1) xs

/-- The fill pass over all map entries for one event (synth.rs lines
148-167). -/
def fillAll {α : Type} [Field α] (sval : Nat → Nat → α) (active : ActiveNotes)
    (cursor sd : Nat) (bufs : List (List α)) : List (List α) :=
  active.foldl
    (fun bs p =>
      bs.set p.1 (fillFrom (noteMix sval p.2 (max active.length 1)) cursor sd 0
        (bs.getD p.1 [])))
    bufs

/-- The per-track event loop of `create_buffer` (synth.rs lines
144-221): compute the sample delta, fill the active channels, dispatch
the event (breaking at `EndOfTrack`, retuning the samples-per-tick on
`SetTempo`), then advance the sample cursor. -/
def synthGo {α : Type} [Field α] (sval : Nat → Nat → α) (td : TimeDivision)
    (rate : Nat) (chIdx : List Nat) :
    List MIDIEventK → Nat → Nat → ActiveNotes → List (List α) → List (List α)
  | [], _, _, _, bufs => bufs
  | e :: rest, tickNs, cursor, active, bufs =>
    let sd := e.deltaTime * (rate * tickNs) / 1000000000
    let bufs := fillAll sval active cursor sd bufs
    match e.kind with
    | .Channel ce =>
        synthGo sval td rate chIdx rest tickNs (cursor + sd)
          (applyChannelK chIdx active ce) bufs
    | .Meta .EndOfTrack => bufs
    | .Meta (.SetTempo tempo) =>
        synthGo sval td rate chIdx rest (td.tickDurationNs tempo) (cursor + sd) active bufs
    | .Meta _ => synthGo sval td rate chIdx rest tickNs (cursor + sd) active bufs

/-- Embeds `MidiSynth::create_buffer` (synth.rs lines 125-225):
`buffer_length = (sample_rate as f32 * total_duration.as_secs_f32()).floor()
as usize` — idealized as the exact `rate * totalNs / 10 ^ 9`, which
agrees with the program when the f32 computations are exact (as at every
concrete input used below) but can differ by rounding elsewhere (at
totalNs = 999999996 and rate 1 the program's `as_secs_f32` rounds to
1.0 s and it returns 1 while the exact floor is 0) — then one zeroed
buffer of that length per (track, channel index) pair, then the
per-track replay.  The program allocates every buffer from the same
`buffer_length` it returns and no write resizes a buffer, so the
relation between the returned length and the buffer shapes is
insensitive to the idealization. -/
def createBuffer {α : Type} [Field α] (sval : Nat → Nat → α)
    (drain : List Nat → List Nat) (data : MIDIFileDataK) (rate : Nat) :
    Nat × List (List (List α)) :=
  let meta := MidiMeta.new drain data
  let bufLen := rate * meta.total_durationNs / 1000000000
  let init := data.time_division.tickDurationNs Tempo.default
  (bufLen,
   (data.tracks.zip meta.tracks).map fun p =>
     synthGo sval data.time_division rate p.2.channel_idx p.1 init 0 []
       (List.replicate p.2.channel_idx.length (List.replicate bufLen (0 : α))))

/-- Lookup checker for the per-track replay: the replay calls
`channel_index` — whose `expect` panics on a missing channel — for
exactly the channel events before the `EndOfTrack` break; this predicate
demands each such channel be present in the track's channel index.  It
involves no cursor, sample-delta or buffer-length arithmetic, so it is
independent of the program's f32 computations. -/
def synthLookupGo (chIdx : List Nat) : List MIDIEventK → Prop
  | [] => True
  | e :: rest =>
    match e.kind with
    | .Channel ce => ce.channel ∈ chIdx ∧ synthLookupGo chIdx rest
    | .Meta .EndOfTrack => True
    | .Meta _ => synthLookupGo chIdx rest

/-! ## Waveform evaluator (synth.rs lines 90-107 and the sine waveform)

`MidiNote::frequency` is 12-tone equal temperament; the sine evaluator
used by `create_buffer` is `sin(2π · f · t)` at `t = sampleIdx / rate`
(the `SineWave` revision matching synth.rs is not among the source
files; the evaluator is modelled from the spec, consistent with the
`SineWave` in wave.rs). -/

/-- Embeds `MidiNote::frequency` (synth.rs lines 100-106):
`440 * 2 ^ ((note - 69) / 12)`, idealized over `ℝ`. -/
noncomputable def MidiNote.frequency (note : Nat) : ℝ :=
  440 * (2 : ℝ) ^ (((note : ℝ) - 69) / 12)

/-- Modelled from the spec: the sine sample evaluator
`SineWave::new(frequency).value((sample_number + sample_num) / sample_rate)`
of synth.rs lines 156-160, i.e. `sin(2π · f · t)`. -/
noncomputable def sineSample (rate : Nat) (note sampleIdx : Nat) : ℝ :=
  Real.sin (2 * Real.pi * (MidiNote.frequency note * ((sampleIdx : ℝ) / (rate : ℝ))))

/-! ## Event scheduler (`MidiSynth::schedule`, src/synth/web_audio.rs
lines 22-161)

The walk mirrors the metadata pass: absolute time accumulates
tick-duration · delta for every event, tempo-aware.  `schedule_note`'s
effect on the audio graph is modelled as a descriptor per completed
NoteOn/NoteOff pair; all duration arithmetic is exact (microsecond
truncation of the f32 products idealized to exact rational floor). -/

/-- Embeds the scheduler's transient `PlayedNote` (web_audio.rs lines
41-44), keyed by (channel, note). -/
structure PlayedNote where
  startNs : Nat
  onVelocity : Nat
deriving DecidableEq, Repr

/-- The observable effect of `schedule_note` (web_audio.rs lines
112-161): oscillator frequency note, start/stop interval, peak gain
`on_frac = on_velocity / 127`, release fraction `off_frac`, and the
clamped attack and release times. -/
structure ScheduledNote where
  note : Nat
  startNs : Nat
  durationNs : Nat
  onFrac : ℚ
  offFrac : ℚ
  attackNs : Nat
  releaseNs : Nat
deriving DecidableEq, Repr

/-- Embeds `schedule_note` (web_audio.rs lines 112-161):
`attack = min(100ms · (1 - on_frac), duration / 3)` and
`release = min(2000ms · (1 - off_frac), duration / 2)`, the f32 products
truncated at the microsecond (`as u64`), the `Duration` divisions at the
nanosecond. -/
def scheduleNote (note onVelocity offVelocity startNs durationNs : Nat) : ScheduledNote :=
  let onFrac : ℚ := onVelocity / 127
  let offFrac : ℚ := offVelocity / 127
  let attackNs := min ((((100000 : ℚ) * (1 - onFrac)).floor.toNat) * 1000) (durationNs / 3)
  let releaseNs := min ((((2000000 : ℚ) * (1 - offFrac)).floor.toNat) * 1000) (durationNs / 2)
  ⟨note, startNs, durationNs, onFrac, offFrac, attackNs, releaseNs⟩

/-- The running `played_notes : HashMap<(u8, MidiNote), PlayedNote>`
(web_audio.rs line 46) as an association list; `insert` overwrites an
existing entry for the key. -/
def insertPlayed (played : List ((Nat × Nat) × PlayedNote)) (key : Nat × Nat)
    (pn : PlayedNote) : List ((Nat × Nat) × PlayedNote) :=
  if played.any (fun q => q.1 = key) then
    played.map fun q => if q.1 = key then (q.1, pn) else q
  else
    played ++ [(key, pn)]

/-- HashMap `remove`: the stored value for the key, if any, together
with the map without that entry. -/
def removePlayed (played : List ((Nat × Nat) × PlayedNote)) (key : Nat × Nat) :
    Option PlayedNote × List ((Nat × Nat) × PlayedNote) :=
  match played.find? (fun q => q.1 = key) with
  | some q => (some q.2, played.filter (fun q' => ¬ q'.1 = key))
  | none => (none, played)

/-- The per-track event loop of `schedule` (web_audio.rs lines 48-106):
advance absolute time by tick-duration · delta, record NoteOn into the
played map (overwriting), emit a descriptor on a matching NoteOff (an
orphan NoteOff is dropped), retune on SetTempo and stop at EndOfTrack.
`t0` is the external `ctx.current_time()` in nanoseconds. -/
def scheduleGo (td : TimeDivision) :
    List MIDIEventK → Nat → Nat → List ((Nat × Nat) × PlayedNote) →
    List ScheduledNote → List ScheduledNote
  | [], _, _, _, out => out
  | e :: rest, timeNs, tickNs, played, out =>
    let t := timeNs + tickNs * e.deltaTime
    match e.kind with
    | .Channel ce =>
      match ce.kind with
      | .NoteOff note offVelocity =>
        match removePlayed played (ce.channel, note) with
        | (some pn, played') =>
            scheduleGo td rest t tickNs played'
              (out ++ [scheduleNote note pn.onVelocity offVelocity pn.startNs
                        (t - pn.startNs)])
        | (none, _) => scheduleGo td rest t tickNs played out
      | .NoteOn note velocity =>
          scheduleGo td rest t tickNs (insertPlayed played (ce.channel, note) ⟨t, velocity⟩) out
      | _ => scheduleGo td rest t tickNs played out
    | .Meta .EndOfTrack => out
    | .Meta (.SetTempo tempo) => scheduleGo td rest t (td.tickDurationNs tempo) played out
    | .Meta _ => scheduleGo td rest t tickNs played out

/-! ## Auxiliary specification-side definitions and concrete examples -/

/-- A channel number occurs on a channel event strictly before the first
`EndOfTrack` of the event list — the set of channels the metadata pass
(and the synthesizer pass, which breaks at the same event) can observe. -/
def channelOccurs (c : Nat) : List MIDIEventK → Bool
  | [] => false
  | e :: rest =>
    match e.kind with
    | .Channel ce => ce.channel == c || channelOccurs c rest
    | .Meta .EndOfTrack => false
    | .Meta _ => channelOccurs c rest

/-- A one-track file at one tick per quarter note whose track spans one
tick: with the default tempo its total duration is exactly half a
second, so a sample rate of 3 puts `sampleRate · totalDuration = 1.5`
strictly between two integers. -/
def exampleHalfSecond : MIDIFileDataK :=
  ⟨.TicksPerBit 1,
   [[⟨1, .Channel ⟨0, .NoteOn 60 100⟩⟩, ⟨0, .Meta .EndOfTrack⟩]]⟩

/-- A one-track file holding notes 69 (A4, 440 Hz) and 57 (A3, 220 Hz)
simultaneously on channel 0 for two ticks of one millisecond each; at
sample rate 1760 the sample times hit exact points of both sines. -/
def exampleTwoNotes : MIDIFileDataK :=
  ⟨.TicksPerBit 500,
   [[⟨0, .Channel ⟨0, .NoteOn 69 100⟩⟩, ⟨0, .Channel ⟨0, .NoteOn 57 100⟩⟩,
     ⟨2, .Meta .EndOfTrack⟩]]⟩

/-- A one-track file whose channel events name channel 3 first and
channel 5 second. -/
def exampleTwoChannels : MIDIFileDataK :=
  ⟨.TicksPerBit 96,
   [[⟨0, .Channel ⟨3, .NoteOn 60 1⟩⟩, ⟨0, .Channel ⟨5, .NoteOn 61 1⟩⟩,
     ⟨0, .Meta .EndOfTrack⟩]]⟩

/-- A decodable file model with time division `TicksPerBit 0` (the
decoder accepts a raw time-division word 0) and one track, so
`tick_duration` divides a `Duration` by zero. -/
def exampleZeroDivision : MIDIFileDataK :=
  ⟨.TicksPerBit 0, [[⟨0, .Meta .EndOfTrack⟩]]⟩

/-! # Theorems -/

/-! ## Shared byte-cursor lemmas -/

namespace BigEndianReader

theorem read_n_bytes_none {r : BigEndianReader} {n : Nat}
    (h : (r.read_n_bytes n).1 = none) : (r.read_n_bytes n).2 = r := by
  revert h
  unfold read_n_bytes
  split <;> simp

theorem read_n_bytes_some {r : BigEndianReader} {n : Nat}
    (hp : r.pointer ≤ r.buffer.length) (h : (r.read_n_bytes n).1.isSome) :
    (r.read_n_bytes n).2 = ⟨r.buffer, r.pointer + n⟩ ∧ r.pointer + n ≤ r.buffer.length := by
  revert h
  unfold read_n_bytes left_bytes
  split
  · intro _
    refine ⟨rfl, by omega⟩
  · simp

theorem read_u8_none {r : BigEndianReader} (h : (r.read_u8).1 = none) :
    (r.read_u8).2 = r := by
  revert h
  unfold read_u8
  rcases e : r.read_n_bytes 1 with ⟨o, r'⟩
  cases o <;> simp
  have := read_n_bytes_none (r := r) (n := 1) (by rw [e])
  rw [e] at this
  exact this

theorem read_u8_some {r : BigEndianReader} (hp : r.pointer ≤ r.buffer.length)
    (h : (r.read_u8).1.isSome) :
    (r.read_u8).2 = ⟨r.buffer, r.pointer + 1⟩ ∧ r.pointer + 1 ≤ r.buffer.length := by
  revert h
  unfold read_u8
  rcases e : r.read_n_bytes 1 with ⟨o, r'⟩
  cases o <;> simp
  have := read_n_bytes_some (r := r) (n := 1) hp (by rw [e]; simp)
  rw [e] at this
  exact this

theorem read_u8_none_at_end {r : BigEndianReader} (hp : r.pointer ≤ r.buffer.length)
    (h : (r.read_u8).1 = none) : r.pointer = r.buffer.length := by
  by_cases hc : 1 ≤ r.left_bytes
  · exfalso
    unfold read_u8 read_n_bytes at h
    rw [if_pos hc] at h
    simp at h
  · unfold left_bytes at hc
    omega

theorem read_u16_none {r : BigEndianReader} (h : (r.read_u16).1 = none) :
    (r.read_u16).2 = r := by
  revert h
  unfold read_u16
  rcases e : r.read_n_bytes 2 with ⟨o, r'⟩
  cases o <;> simp
  have := read_n_bytes_none (r := r) (n := 2) (by rw [e])
  rw [e] at this
  exact this

theorem read_u16_some {r : BigEndianReader} (hp : r.pointer ≤ r.buffer.length)
    (h : (r.read_u16).1.isSome) : (r.read_u16).2 = ⟨r.buffer, r.pointer + 2⟩ := by
  revert h
  unfold read_u16
  rcases e : r.read_n_bytes 2 with ⟨o, r'⟩
  cases o <;> simp
  have := read_n_bytes_some (r := r) (n := 2) hp (by rw [e]; simp)
  rw [e] at this
  exact this.1

theorem read_u32_none {r : BigEndianReader} (h : (r.read_u32).1 = none) :
    (r.read_u32).2 = r := by
  revert h
  unfold read_u32
  rcases e : r.read_n_bytes 4 with ⟨o, r'⟩
  cases o <;> simp
  have := read_n_bytes_none (r := r) (n := 4) (by rw [e])
  rw [e] at this
  exact this

theorem read_u32_some {r : BigEndianReader} (hp : r.pointer ≤ r.buffer.length)
    (h : (r.read_u32).1.isSome) : (r.read_u32).2 = ⟨r.buffer, r.pointer + 4⟩ := by
  revert h
  unfold read_u32
  rcases e : r.read_n_bytes 4 with ⟨o, r'⟩
  cases o <;> simp
  have := read_n_bytes_some (r := r) (n := 4) hp (by rw [e]; simp)
  rw [e] at this
  exact this.1

theorem readVarLoop_spec : ∀ (fuel value : Nat) (r : BigEndianReader),
    r.pointer ≤ r.buffer.length →
    ((readVarLoop fuel value r).2.buffer = r.buffer ∧
     r.pointer ≤ (readVarLoop fuel value r).2.pointer ∧
     (readVarLoop fuel value r).2.pointer ≤ r.pointer + fuel ∧
     (readVarLoop fuel value r).2.pointer ≤ r.buffer.length) ∧
    ((readVarLoop fuel value r).1 = none →
      (readVarLoop fuel value r).2.pointer = r.buffer.length) := by
  intro fuel
  induction fuel with
  | zero => intro value r h; simp [readVarLoop, h]
  | succ n ih =>
    intro value r h
    unfold readVarLoop
    rcases e : r.read_u8 with ⟨o, r1⟩
    cases o with
    | none =>
      have h1 : r1 = r := by
        have := read_u8_none (r := r) (by rw [e]); rw [e] at this; simpa using this
      have h2 : r.pointer = r.buffer.length := read_u8_none_at_end h (by rw [e])
      subst h1
      simp [h, h2]
    | some byte =>
      have h1 := read_u8_some (r := r) h (by rw [e]; simp)
      rw [e] at h1
      have h1a : r1 = ⟨r.buffer, r.pointer + 1⟩ := by simpa using h1.1
      have h1b : r.pointer + 1 ≤ r.buffer.length := h1.2
      by_cases hb : byte &&& 0x80 = 0
      · subst h1a
        simp [hb]
        omega
      · simp only [hb, reduceIte]
        rw [h1a]
        have key := ih (((value + (byte &&& 127)) <<< 7) % 2 ^ 32)
          ⟨r.buffer, r.pointer + 1⟩ (by simpa using h1b)
        obtain ⟨⟨ka, kb, kc, kd⟩, knone⟩ := key
        refine ⟨⟨ka, ?_, ?_, kd⟩, knone⟩
        · simp at kb ⊢
          omega
        · simp at kc ⊢
          omega

end BigEndianReader

/-! ## Claim C4 -/

open BigEndianReader in
/-- Claim C4, amended.  For every buffer and every starting position
inside it, each fixed-size read (`read_n_bytes`, `read_u8`, `read_u16`,
`read_u32`, `read_range n`) either returns a value and advances the
position by exactly the consumed byte count or signals insufficiency and
leaves the reader unchanged; `read_var_length`, however, only advances
by the consumed count (one to four bytes) on success, while on a
truncated continuation sequence it returns `none` with the position
moved to the end of the buffer — it does not restore the starting
position. -/
theorem c4_reader_position_discipline (r : BigEndianReader)
    (hp : r.pointer ≤ r.buffer.length) :
    (∀ n, ((r.read_n_bytes n).1 = none → (r.read_n_bytes n).2 = r) ∧
       ((r.read_n_bytes n).1.isSome → (r.read_n_bytes n).2 = ⟨r.buffer, r.pointer + n⟩)) ∧
    ((r.read_u8.1 = none → r.read_u8.2 = r) ∧
       (r.read_u8.1.isSome → r.read_u8.2 = ⟨r.buffer, r.pointer + 1⟩)) ∧
    ((r.read_u16.1 = none → r.read_u16.2 = r) ∧
       (r.read_u16.1.isSome → r.read_u16.2 = ⟨r.buffer, r.pointer + 2⟩)) ∧
    ((r.read_u32.1 = none → r.read_u32.2 = r) ∧
       (r.read_u32.1.isSome → r.read_u32.2 = ⟨r.buffer, r.pointer + 4⟩)) ∧
    (∀ n, ((r.read_range n).1 = none → (r.read_range n).2 = r) ∧
       ((r.read_range n).1.isSome → (r.read_range n).2 = ⟨r.buffer, r.pointer + n⟩)) ∧
    ((r.read_var_length.1.isSome →
        r.read_var_length.2.buffer = r.buffer ∧
        r.pointer + 1 ≤ r.read_var_length.2.pointer ∧
        r.read_var_length.2.pointer ≤ r.pointer + 4) ∧
     (r.read_var_length.1 = none → r.read_var_length.2 = ⟨r.buffer, r.buffer.length⟩)) := by
  refine ⟨fun n => ⟨fun h => read_n_bytes_none h, fun h => (read_n_bytes_some hp h).1⟩,
    ⟨fun h => read_u8_none h, fun h => (read_u8_some hp h).1⟩,
    ⟨fun h => read_u16_none h, fun h => read_u16_some hp h⟩,
    ⟨fun h => read_u32_none h, fun h => read_u32_some hp h⟩,
    fun n => ⟨fun h => read_n_bytes_none h, fun h => (read_n_bytes_some hp h).1⟩,
    ⟨?_, ?_⟩⟩
  · intro hs
    unfold read_var_length at hs ⊢
    rcases e : r.read_u8 with ⟨o, r1⟩
    cases o with
    | none =>
      exfalso
      unfold readVarLoop at hs
      rw [e] at hs
      simp at hs
    | some byte =>
      have h1 := read_u8_some (r := r) hp (by rw [e]; simp)
      rw [e] at h1
      have h1a : r1 = ⟨r.buffer, r.pointer + 1⟩ := by simpa using h1.1
      have h1b : r.pointer + 1 ≤ r.buffer.length := h1.2
      show (readVarLoop 4 0 r).2.buffer = r.buffer ∧ _ ∧ _
      unfold readVarLoop
      rw [e, h1a]
      by_cases hb : byte &&& 0x80 = 0
      · simp [hb]
      · simp only [hb, reduceIte]
        have key := (readVarLoop_spec 3 (((0 + (byte &&& 127)) <<< 7) % 2 ^ 32)
          ⟨r.buffer, r.pointer + 1⟩ (by simpa using h1b)).1
        refine ⟨key.1, ?_, ?_⟩
        · have t := key.2.1
          dsimp only at t ⊢
          omega
        · have t := key.2.2.1
          dsimp only at t ⊢
          omega
  · intro hn
    have key := readVarLoop_spec 4 0 r hp
    have hb : (r.read_var_length).2.buffer = r.buffer := key.1.1
    have hpz : (r.read_var_length).2.pointer = r.buffer.length := key.2 hn
    rcases h2 : (r.read_var_length).2 with ⟨b, p⟩
    rw [h2] at hb hpz
    simp at hb hpz
    rw [hb, hpz]

/-- Claim C4, counterexample.  On the one-byte buffer `[0x80]` — a
truncated continuation sequence — `read_var_length` signals
insufficiency but leaves the position at 1, not at the starting
position 0, refuting the claim that every failing read leaves the
position unchanged. -/
theorem c4_varlength_moves_on_insufficient :
    (BigEndianReader.read_var_length ⟨[0x80], 0⟩).1 = none ∧
    (BigEndianReader.read_var_length ⟨[0x80], 0⟩).2.pointer = 1 := by decide

/-- Claim C4, witness: the amended theorem applied to the concrete
two-byte var-length quantity `[0x81, 0x48]` read from position 0. -/
theorem c4_position_witness :
    (BigEndianReader.read_var_length ⟨[0x81, 0x48], 0⟩).2.pointer ≤ 0 + 4 :=
  ((c4_reader_position_discipline ⟨[0x81, 0x48], 0⟩ (by decide)).2.2.2.2.2.1
    (by decide)).2.2

/-! ## Claim C9 -/

theorem and128_of_lt : ∀ x < 128, x &&& 128 = 0 := by decide

theorem and128_of_cont : ∀ x < 128, (128 + x) &&& 128 = 128 := by decide

theorem and127_of_cont : ∀ x < 128, (128 + x) &&& 127 = x := by decide

/-- Claim C9, confirmed.  For every value v below 2^28, decoding the
standard MIDI variable-length-quantity encoding of v (at most four
bytes, seven payload bits per byte, continuation flagged by the high
bit) with `read_var_length` yields exactly v. -/
theorem c9_varlength_roundtrip (v : Nat) (h : v < 2 ^ 28) :
    (BigEndianReader.read_var_length ⟨encodeVarLength v, 0⟩).1 = some v := by
  unfold encodeVarLength
  by_cases h7 : v < 2 ^ 7
  · rw [if_pos h7]
    simp only [BigEndianReader.read_var_length, BigEndianReader.readVarLoop,
      BigEndianReader.read_u8, BigEndianReader.read_n_bytes, BigEndianReader.left_bytes,
      List.length_cons, List.length_nil, List.drop, List.take, List.getD]
    norm_num
    rw [and128_of_lt v (by omega)]
    simp
    omega
  · by_cases h14 : v < 2 ^ 14
    · rw [if_neg h7, if_pos h14]
      simp only [BigEndianReader.read_var_length, BigEndianReader.readVarLoop,
        BigEndianReader.read_u8, BigEndianReader.read_n_bytes, BigEndianReader.left_bytes,
        List.length_cons, List.length_nil, List.drop, List.take, List.getD]
      norm_num
      rw [and128_of_cont _ (by omega : v / 128 < 128),
        and127_of_cont _ (by omega : v / 128 < 128),
        and128_of_lt _ (by omega : v % 128 < 128)]
      simp [Nat.shiftLeft_eq]
      omega
    · by_cases h21 : v < 2 ^ 21
      · rw [if_neg h7, if_neg h14, if_pos h21]
        simp only [BigEndianReader.read_var_length, BigEndianReader.readVarLoop,
          BigEndianReader.read_u8, BigEndianReader.read_n_bytes, BigEndianReader.left_bytes,
          List.length_cons, List.length_nil, List.drop, List.take, List.getD]
        norm_num
        rw [and128_of_cont _ (by omega : v / 16384 < 128),
          and127_of_cont _ (by omega : v / 16384 < 128),
          and128_of_cont _ (by omega : v / 128 % 128 < 128),
          and127_of_cont _ (by omega : v / 128 % 128 < 128),
          and128_of_lt _ (by omega : v % 128 < 128)]
        simp [Nat.shiftLeft_eq]
        omega
      · rw [if_neg h7, if_neg h14, if_neg h21]
        simp only [BigEndianReader.read_var_length, BigEndianReader.readVarLoop,
          BigEndianReader.read_u8, BigEndianReader.read_n_bytes, BigEndianReader.left_bytes,
          List.length_cons, List.length_nil, List.drop, List.take, List.getD]
        norm_num
        rw [and128_of_cont _ (by omega : v / 2097152 < 128),
          and127_of_cont _ (by omega : v / 2097152 < 128),
          and128_of_cont _ (by omega : v / 16384 % 128 < 128),
          and127_of_cont _ (by omega : v / 16384 % 128 < 128),
          and128_of_cont _ (by omega : v / 128 % 128 < 128),
          and127_of_cont _ (by omega : v / 128 % 128 < 128),
          and128_of_lt _ (by omega : v % 128 < 128)]
        simp [Nat.shiftLeft_eq]
        omega

/-- Claim C9, witness: the round-trip theorem applied to the concrete
value 1048576, whose standard encoding spans three bytes. -/
theorem c9_varlength_roundtrip_witness :
    (BigEndianReader.read_var_length ⟨encodeVarLength 1048576, 0⟩).1 = some 1048576 :=
  c9_varlength_roundtrip 1048576 (by decide)

/-! ## Decoder error lemmas: nothing after the format-type check produces
`UnsupportedType` -/

theorem readTextMeta_ne_UT (r : BigEndianReader) (len : Nat) (mk : List Nat → MetaEvent) :
    readTextMeta r len mk ≠ .error .UnsupportedType := by
  unfold readTextMeta
  split <;> simp

theorem from_meta_event_ne_UT (r : BigEndianReader) :
    MIDIEvent.from_meta_event r ≠ .error .UnsupportedType := by
  unfold MIDIEvent.from_meta_event
  repeat' split
  all_goals first | exact readTextMeta_ne_UT _ _ _ | simp

theorem from_track_event_ne_UT (d t c p1 p2 : Nat) :
    MIDIEvent.from_track_event d t c p1 p2 ≠ .error .UnsupportedType := by
  unfold MIDIEvent.from_track_event
  repeat' split
  all_goals simp

theorem trackLoop_ne_UT : ∀ fuel r events,
    trackLoop fuel r events ≠ .error .UnsupportedType := by
  intro fuel
  induction fuel with
  | zero => intro r events; simp [trackLoop]
  | succ n ih =>
    intro r events
    unfold trackLoop
    repeat' split
    all_goals first
      | exact ih _ _
      | (rename_i heq
         intro hcontra
         injection hcontra with hh
         subst hh
         exact from_meta_event_ne_UT _ heq)
      | (rename_i heq
         intro hcontra
         injection hcontra with hh
         subst hh
         exact from_track_event_ne_UT _ _ _ _ _ heq)
      | simp

theorem MIDITrack_new_ne_UT (r : BigEndianReader) :
    MIDITrack.new r ≠ .error .UnsupportedType := by
  unfold MIDITrack.new
  repeat' split
  all_goals first
    | (rename_i heq
       intro hcontra
       injection hcontra with hh
       subst hh
       exact trackLoop_ne_UT _ _ _ heq)
    | simp

theorem tracksLoop_ne_UT : ∀ n r acc, tracksLoop n r acc ≠ .error .UnsupportedType := by
  intro n
  induction n with
  | zero => intro r acc; simp [tracksLoop]
  | succ k ih =>
    intro r acc
    unfold tracksLoop
    repeat' split
    all_goals first
      | exact ih _ _
      | (rename_i heq
         intro hcontra
         injection hcontra with hh
         subst hh
         exact MIDITrack_new_ne_UT _ heq)

theorem parse_time_division_ne_UT (v : Nat) :
    MIDIFileData.parse_time_division v ≠ .error .UnsupportedType := by
  unfold MIDIFileData.parse_time_division
  repeat' split
  all_goals simp

/-! ## Claim C1 -/

theorem c1_eval_reads (a b : Nat) (rest : List Nat) :
    BigEndianReader.read_range ⟨77 :: 84 :: 104 :: 100 :: 0 :: 0 :: 0 :: 6 :: a :: b :: rest, 0⟩ 4 =
      (some [77, 84, 104, 100], ⟨77 :: 84 :: 104 :: 100 :: 0 :: 0 :: 0 :: 6 :: a :: b :: rest, 4⟩) ∧
    BigEndianReader.read_u32 ⟨77 :: 84 :: 104 :: 100 :: 0 :: 0 :: 0 :: 6 :: a :: b :: rest, 4⟩ =
      (some 6, ⟨77 :: 84 :: 104 :: 100 :: 0 :: 0 :: 0 :: 6 :: a :: b :: rest, 8⟩) ∧
    BigEndianReader.read_u16 ⟨77 :: 84 :: 104 :: 100 :: 0 :: 0 :: 0 :: 6 :: a :: b :: rest, 8⟩ =
      (some (a <<< 8 ||| b), ⟨77 :: 84 :: 104 :: 100 :: 0 :: 0 :: 0 :: 6 :: a :: b :: rest, 10⟩) := by
  refine ⟨?_, ?_, ?_⟩
  · unfold BigEndianReader.read_range BigEndianReader.read_n_bytes BigEndianReader.left_bytes
    rw [if_pos (by simp)]
    simp
  · unfold BigEndianReader.read_u32 BigEndianReader.read_n_bytes BigEndianReader.left_bytes
    rw [if_pos (by simp)]
    simp
  · unfold BigEndianReader.read_u16 BigEndianReader.read_n_bytes BigEndianReader.left_bytes
    rw [if_pos (by simp)]
    simp

/-- Claim C1, amended.  For every buffer with a valid `MThd` magic and
header length 6, if the following big-endian u16 format-type field is 0
the decode never fails with the unsupported-type error; for every other
declared format type — including type 1, multi-track simultaneous — the
decode fails with exactly the unsupported-type error. -/
theorem c1_format_type_gate (a b : Nat) (rest : List Nat) :
    (a <<< 8 ||| b = 0 →
      MIDIFileData.tryFrom ([0x4D, 0x54, 0x68, 0x64, 0, 0, 0, 6] ++ a :: b :: rest) ≠
        .error .UnsupportedType) ∧
    (a <<< 8 ||| b ≠ 0 →
      MIDIFileData.tryFrom ([0x4D, 0x54, 0x68, 0x64, 0, 0, 0, 6] ++ a :: b :: rest) =
        .error .UnsupportedType) := by
  obtain ⟨e1, e2, e3⟩ := c1_eval_reads a b rest
  have hb : ([0x4D, 0x54, 0x68, 0x64, 0, 0, 0, 6] ++ a :: b :: rest) =
      77 :: 84 :: 104 :: 100 :: 0 :: 0 :: 0 :: 6 :: a :: b :: rest := by simp
  rw [hb]
  unfold MIDIFileData.tryFrom
  rw [e1]
  simp only [ne_eq, Option.some.injEq, reduceCtorEq, not_true_eq_false, not_false_eq_true,
    if_false, if_true]
  rw [e2]
  simp only [ne_eq, Option.some.injEq, reduceCtorEq, not_true_eq_false, not_false_eq_true,
    if_false, if_true]
  rw [e3]
  constructor
  · intro h0
    rw [h0]
    simp only [ne_eq, Option.some.injEq, not_true_eq_false, if_false, reduceIte]
    repeat' split
    all_goals first
      | (rename_i heq
         intro hcontra
         injection hcontra with hh
         subst hh
         exact tracksLoop_ne_UT _ _ _ heq)
      | (rename_i heq
         intro hcontra
         injection hcontra with hh
         subst hh
         exact parse_time_division_ne_UT _ heq)
      | simp
  · intro h0
    simp only [ne_eq, Option.some.injEq, h0, not_false_eq_true, if_true, reduceIte]

/-- Claim C1, counterexample.  The shortest buffer declaring format
type 1 (multi-track simultaneous) behind a valid magic and header
length is rejected with the unsupported-type error, although the claim
says a type-1 buffer must not fail with that error. -/
theorem c1_type1_rejected :
    MIDIFileData.tryFrom [0x4D, 0x54, 0x68, 0x64, 0, 0, 0, 6, 0, 1] =
      .error .UnsupportedType := by rfl

/-- Claim C1, witness: the amended theorem applied to a complete
well-formed type-0 file, whose decode is not the unsupported-type
error. -/
theorem c1_format_type_witness :
    MIDIFileData.tryFrom ([0x4D, 0x54, 0x68, 0x64, 0, 0, 0, 6] ++ 0 :: 0 ::
      [0x00, 0x01, 0x00, 0x60, 0x4D, 0x54, 0x72, 0x6B, 0, 0, 0, 8,
       0x00, 0x90, 60, 100, 0x00, 0xFF, 0x2F, 0x00]) ≠ .error .UnsupportedType :=
  (c1_format_type_gate 0 0
    [0x00, 0x01, 0x00, 0x60, 0x4D, 0x54, 0x72, 0x6B, 0, 0, 0, 8,
     0x00, 0x90, 60, 100, 0x00, 0xFF, 0x2F, 0x00]).1 (by decide)

/-! ## Claim C8 -/

theorem trackLoop_ok_last : ∀ fuel r events out, trackLoop fuel r events = .ok out →
    out ≠ [] ∧ out.getLast? = some (.Meta .EndOfTrack) := by
  intro fuel
  induction fuel with
  | zero => intro r events out h; simp [trackLoop] at h
  | succ n ih =>
    intro r events out h
    unfold trackLoop at h
    repeat' split at h
    all_goals first
      | exact ih _ _ _ h
      | (rename_i hEOT
         (try injection h with h)
         subst h
         rw [hEOT]
         exact ⟨by simp, by rw [List.getLast?_append_cons]; rfl⟩)
      | simp at h

theorem MIDITrack_new_last (r : BigEndianReader) (track : MIDITrack)
    (r' : BigEndianReader) (h : MIDITrack.new r = .ok (track, r')) :
    track.events ≠ [] ∧ track.events.getLast? = some (.Meta .EndOfTrack) := by
  unfold MIDITrack.new at h
  rcases e0 : BigEndianReader.read_range r 4 with ⟨o0, r1⟩
  rw [e0] at h
  dsimp only at h
  by_cases hc : o0 ≠ some [0x4D, 0x54, 0x72, 0x6B]
  · rw [if_pos hc] at h
    simp at h
  · rw [if_neg hc] at h
    rcases e1 : r1.read_u32 with ⟨o1, r2⟩
    rw [e1] at h
    cases o1 with
    | none => simp at h
    | some sz =>
      dsimp only at h
      rcases e2 : r2.read_range sz with ⟨o2, r3⟩
      rw [e2] at h
      cases o2 with
      | none => simp at h
      | some buf =>
        dsimp only at h
        rcases e3 : trackLoop (buf.length + 1) ⟨buf, 0⟩ [] with e | evs
        · rw [e3] at h
          simp at h
        · rw [e3] at h
          dsimp only at h
          have key := trackLoop_ok_last _ _ _ _ e3
          injection h with hh
          injection hh with hh1 hh2
          subst hh1
          exact key

/-- Claim C8, confirmed.  The per-track event loop terminates exactly on
an `EndOfTrack` meta event: every successfully decoded track is
non-empty and its last event is `EndOfTrack`; and reaching the end of a
chunk's declared byte length without an `EndOfTrack` (here a four-byte
chunk holding only a NoteOn) is a hard decode error. -/
theorem c8_track_ends_with_eot :
    (∀ r track r', MIDITrack.new r = .ok (track, r') →
      track.events ≠ [] ∧ track.events.getLast? = some (.Meta .EndOfTrack)) ∧
    MIDITrack.new ⟨[0x4D, 0x54, 0x72, 0x6B, 0, 0, 0, 4, 0x00, 0x90, 60, 100], 0⟩ =
      .error .InvalidEvent :=
  ⟨MIDITrack_new_last, by rfl⟩

/-- Claim C8, witness: the theorem applied to a well-formed eight-byte
chunk holding a NoteOn followed by EndOfTrack. -/
theorem c8_track_ends_with_eot_witness :
    (MIDITrack.mk [.Channel (.NoteOn 0 0 60 100), .Meta .EndOfTrack]).events ≠ [] ∧
    (MIDITrack.mk [.Channel (.NoteOn 0 0 60 100), .Meta .EndOfTrack]).events.getLast? =
      some (.Meta .EndOfTrack) :=
  c8_track_ends_with_eot.1
    ⟨[0x4D, 0x54, 0x72, 0x6B, 0, 0, 0, 8, 0x00, 0x90, 60, 100, 0x00, 0xFF, 0x2F, 0x00], 0⟩
    ⟨[.Channel (.NoteOn 0 0 60 100), .Meta .EndOfTrack]⟩
    ⟨[0x4D, 0x54, 0x72, 0x6B, 0, 0, 0, 8, 0x00, 0x90, 60, 100, 0x00, 0xFF, 0x2F, 0x00], 16⟩
    (by rfl)

/-! ## Claim C5 -/

/-- Claim C5, failing-input theorem.  Two track chunks that differ only
in the delta time written before a `SetTempo` meta event (5 ticks versus
0 ticks) decode to the same track: the delta time read for a meta event
is discarded — `from_meta_event` never receives it and no `MetaEvent`
variant stores one — so duration accumulation cannot add
`tickDuration * deltaTime` for meta events, refuting the claim that
every decoded event carries its delta time. -/
theorem c5_meta_delta_dropped :
    (MIDITrack.new ⟨[0x4D, 0x54, 0x72, 0x6B, 0, 0, 0, 11,
        0x05, 0xFF, 0x51, 0x03, 0x07, 0xA1, 0x20, 0x00, 0xFF, 0x2F, 0x00], 0⟩).toOption.map
        Prod.fst = some ⟨[.Meta (.SetTempo ⟨500000⟩), .Meta .EndOfTrack]⟩ ∧
    (MIDITrack.new ⟨[0x4D, 0x54, 0x72, 0x6B, 0, 0, 0, 11,
        0x00, 0xFF, 0x51, 0x03, 0x07, 0xA1, 0x20, 0x00, 0xFF, 0x2F, 0x00], 0⟩).toOption.map
        Prod.fst = some ⟨[.Meta (.SetTempo ⟨500000⟩), .Meta .EndOfTrack]⟩ := by
  decide

/-! ## Claim C6 -/

theorem pushChannel_nodup (chs : List Nat) (c : Nat) (h : chs.Nodup) :
    (pushChannel chs c).Nodup := by
  unfold pushChannel
  split
  · exact h
  · rename_i hmem
    simp [List.nodup_append, h, hmem]

theorem pushChannel_mem (chs : List Nat) (c x : Nat) :
    x ∈ pushChannel chs c ↔ x ∈ chs ∨ x = c := by
  unfold pushChannel
  split
  · rename_i hmem
    constructor
    · exact fun hx => Or.inl hx
    · rintro (hx | rfl)
      · exact hx
      · exact hmem
  · simp

theorem metaTrackFold_channels_nodup (td : TimeDivision) :
    ∀ (events : List MIDIEventK) (tick dur : Nat) (chs : List Nat), chs.Nodup →
      (metaTrackFold td events tick dur chs).2.Nodup := by
  intro events
  induction events with
  | nil => intro tick dur chs h; simpa [metaTrackFold] using h
  | cons e rest ih =>
    intro tick dur chs h
    rcases e with ⟨d, k⟩
    cases k with
    | Channel ce => simpa [metaTrackFold] using ih _ _ _ (pushChannel_nodup _ _ h)
    | Meta m =>
      cases m <;> first
        | simpa [metaTrackFold] using h
        | simpa [metaTrackFold] using ih _ _ _ h

theorem metaTrackFold_channels_mem (td : TimeDivision) :
    ∀ (events : List MIDIEventK) (tick dur : Nat) (chs : List Nat) (x : Nat),
      (x ∈ (metaTrackFold td events tick dur chs).2 ↔
        x ∈ chs ∨ channelOccurs x events = true) := by
  intro events
  induction events with
  | nil => intro tick dur chs x; simp [metaTrackFold, channelOccurs]
  | cons e rest ih =>
    intro tick dur chs x
    rcases e with ⟨d, k⟩
    cases k with
    | Channel ce =>
      rw [show metaTrackFold td (⟨d, .Channel ce⟩ :: rest) tick dur chs =
        metaTrackFold td rest tick (dur + tick * d) (pushChannel chs ce.channel) from rfl]
      rw [ih]
      simp [channelOccurs, pushChannel_mem]
      constructor
      · rintro ((hx | rfl) | ho)
        · exact Or.inl hx
        · exact Or.inr (Or.inl rfl)
        · exact Or.inr (Or.inr ho)
      · rintro (hx | rfl | ho)
        · exact Or.inl (Or.inl hx)
        · exact Or.inl (Or.inr rfl)
        · exact Or.inr ho
    | Meta m =>
      cases m <;> simp [metaTrackFold, channelOccurs, ih]

theorem map_getD {α β : Type} (f : α → β) (l : List α) (i : Nat)
    (h : i < l.length) (d : β) (d' : α) :
    (l.map f).getD i d = f (l.getD i d') := by
  rw [List.getD_eq_getElem?_getD, List.getD_eq_getElem?_getD, List.getElem?_map]
  rw [List.getElem?_eq_getElem h]
  simp

/-- Claim C6, amended.  For every drain order of the channel hash set —
any function producing a permutation of the collected channels, which is
all `HashSet::into_iter` guarantees — the per-track channel index is
dense: it has no duplicate entries and contains exactly the channels
occurring on channel events before the first `EndOfTrack`.  Its order,
however, is the drain order of the hash set, not guaranteed to be
first-appearance order nor to be the same on every run. -/
theorem c6_channel_index_dense (drain : List Nat → List Nat)
    (hdrain : ∀ l, (drain l).Perm l) (data : MIDIFileDataK) (i : Nat)
    (h : i < data.tracks.length) :
    ((MidiMeta.new drain data).tracks.getD i ⟨[], 0⟩).channel_idx.Nodup ∧
    (∀ c, c ∈ ((MidiMeta.new drain data).tracks.getD i ⟨[], 0⟩).channel_idx ↔
      channelOccurs c (data.tracks.getD i []) = true) := by
  unfold MidiMeta.new
  rw [map_getD _ _ i h _ []]
  dsimp only
  constructor
  · exact ((hdrain _).nodup_iff).2
      (metaTrackFold_channels_nodup data.time_division _ _ _ _ List.nodup_nil)
  · intro c
    rw [(hdrain _).mem_iff]
    rw [metaTrackFold_channels_mem data.time_division _ _ _ _ c]
    simp

/-- Claim C6, counterexample.  On a track whose channel events name
channel 3 first and channel 5 second, the admissible hash-set drain
order `List.reverse` (a permutation of the collected set) produces the
channel index `[5, 3]`, which differs from the first-appearance order
`[3, 5]` that the identity drain produces — so the index is neither in
first-appearance order nor identical across runs. -/
theorem c6_drain_order_not_first_seen :
    ((MidiMeta.new List.reverse exampleTwoChannels).tracks.getD 0 ⟨[], 0⟩).channel_idx =
      [5, 3] ∧
    ((MidiMeta.new id exampleTwoChannels).tracks.getD 0 ⟨[], 0⟩).channel_idx = [3, 5] ∧
    ([5, 3] : List Nat) ≠ [3, 5] ∧
    (List.reverse [3, 5] : List Nat).Perm [3, 5] := by decide

/-- Claim C6, witness: the amended theorem applied to the identity drain
on the two-channel example track. -/
theorem c6_channel_index_dense_witness :
    ((MidiMeta.new id exampleTwoChannels).tracks.getD 0 ⟨[], 0⟩).channel_idx.Nodup ∧
    (∀ c, c ∈ ((MidiMeta.new id exampleTwoChannels).tracks.getD 0 ⟨[], 0⟩).channel_idx ↔
      channelOccurs c (exampleTwoChannels.tracks.getD 0 []) = true) :=
  c6_channel_index_dense id (fun l => List.Perm.refl l) exampleTwoChannels 0 (by decide)

/-! ## Claim C10 -/

theorem notesAt_insertNote (active : ActiveNotes) (idx note : Nat) :
    note ∈ (active.insertNote idx note).notesAt idx := by
  induction active with
  | nil => simp [ActiveNotes.insertNote, ActiveNotes.notesAt, List.find?]
  | cons hd tl ih =>
    unfold ActiveNotes.insertNote
    by_cases hhd : hd.1 = idx
    · rw [if_pos (by simp [List.any_cons, hhd])]
      unfold ActiveNotes.notesAt
      rw [List.map_cons, List.find?_cons_of_pos _ (by simp [hhd])]
      by_cases hn : note ∈ hd.2 <;> simp [hhd, hn]
    · by_cases htl : tl.any (fun p => p.1 = idx)
      · rw [if_pos (by simp [List.any_cons, htl])]
        unfold ActiveNotes.notesAt
        rw [List.map_cons, List.find?_cons_of_neg _ (by simp [hhd])]
        have ihh := ih
        rw [ActiveNotes.insertNote, if_pos htl] at ihh
        unfold ActiveNotes.notesAt at ihh
        exact ihh
      · rw [if_neg (by simp [List.any_cons, hhd, htl])]
        unfold ActiveNotes.notesAt
        rw [List.cons_append, List.find?_cons_of_neg _ (by simp [hhd])]
        have hfind : tl.find? (fun p => p.1 = idx) = none := by
          rw [List.find?_eq_none]
          intro p hp
          simp only [List.any_eq_true] at htl
          simp only [decide_eq_true_eq]
          exact fun hc => htl ⟨p, hp, by simp [hc]⟩
        rw [List.find?_append, hfind]
        simp [List.find?]

/-- Claim C10, confirmed.  A NoteOn with velocity 0 is treated as
starting a note, never as an implicit NoteOff: the sample-buffer
synthesizer's channel dispatch adds the note to the channel's active
set; the event scheduler records it in the played map with on-velocity 0
and emits nothing; and when its matching NoteOff arrives the stored
entry is scheduled with peak gain `0 / 127 = 0`. -/
theorem c10_noteon_zero_velocity_starts_note :
    (∀ (chIdx : List Nat) (active : ActiveNotes) (ch note : Nat),
      note ∈ (applyChannelK chIdx active ⟨ch, .NoteOn note 0⟩).notesAt (chIdx.indexOf ch)) ∧
    (∀ (td : TimeDivision) (d : Nat) (rest : List MIDIEventK) (timeNs tickNs : Nat)
        (played : List ((Nat × Nat) × PlayedNote)) (out : List ScheduledNote) (ch note : Nat),
      scheduleGo td (⟨d, .Channel ⟨ch, .NoteOn note 0⟩⟩ :: rest) timeNs tickNs played out =
        scheduleGo td rest (timeNs + tickNs * d) tickNs
          (insertPlayed played (ch, note) ⟨timeNs + tickNs * d, 0⟩) out) ∧
    (∀ (td : TimeDivision) (d : Nat) (rest : List MIDIEventK) (timeNs tickNs : Nat)
        (played played' : List ((Nat × Nat) × PlayedNote)) (out : List ScheduledNote)
        (ch note offV t0 : Nat),
      removePlayed played (ch, note) = (some ⟨t0, 0⟩, played') →
      scheduleGo td (⟨d, .Channel ⟨ch, .NoteOff note offV⟩⟩ :: rest) timeNs tickNs played out =
        scheduleGo td rest (timeNs + tickNs * d) tickNs played'
          (out ++ [scheduleNote note 0 offV t0 (timeNs + tickNs * d - t0)]) ∧
      (scheduleNote note 0 offV t0 (timeNs + tickNs * d - t0)).onFrac = 0) := by
  refine ⟨?_, ?_, ?_⟩
  · intro chIdx active ch note
    unfold applyChannelK
    exact notesAt_insertNote active (chIdx.indexOf ch) note
  · intro td d rest timeNs tickNs played out ch note
    rfl
  · intro td d rest timeNs tickNs played played' out ch note offV t0 h
    constructor
    · show (match removePlayed played (ch, note) with
        | (some pn, played2) => scheduleGo td rest (timeNs + tickNs * d) tickNs played2
            (out ++ [scheduleNote note pn.onVelocity offV pn.startNs
              (timeNs + tickNs * d - pn.startNs)])
        | (none, _) => scheduleGo td rest (timeNs + tickNs * d) tickNs played out) = _
      rw [h]
    · simp [scheduleNote]

/-- Claim C10, witness: the scheduler step applied with a concrete
played map holding a velocity-0 entry for (channel 0, note 69). -/
theorem c10_noteon_zero_velocity_witness :
    scheduleGo (.TicksPerBit 96) [⟨0, .Channel ⟨0, .NoteOff 69 64⟩⟩] 500 10 [((0, 69), ⟨100, 0⟩)] [] =
      scheduleGo (.TicksPerBit 96) [] (500 + 10 * 0) 10 []
        ([] ++ [scheduleNote 69 0 64 100 (500 + 10 * 0 - 100)]) ∧
    (scheduleNote 69 0 64 100 (500 + 10 * 0 - 100)).onFrac = 0 :=
  c10_noteon_zero_velocity_starts_note.2.2 (.TicksPerBit 96) 0 [] 500 10
    [((0, 69), ⟨100, 0⟩)] [] [] 0 69 64 100 (by rfl)

/-! ## Buffer shape lemmas -/

theorem fillFrom_length {α : Type} (v : Nat → α) (c sd : Nat) :
    ∀ (i : Nat) (buf : List α), (fillFrom v c sd i buf).length = buf.length := by
  intro i buf
  induction buf generalizing i with
  | nil => rfl
  | cons x xs ih => simp [fillFrom, ih]

theorem set_fill_length {α : Type} (v : Nat → α) (c sd L k : Nat) (bufs : List (List α))
    (h : ∀ b ∈ bufs, b.length = L) :
    ∀ b ∈ bufs.set k (fillFrom v c sd 0 (bufs.getD k [])), b.length = L := by
  intro b hb
  by_cases hk : k < bufs.length
  · rcases List.mem_or_eq_of_mem_set hb with hmem | rfl
    · exact h b hmem
    · rw [fillFrom_length]
      rw [List.getD_eq_getElem bufs [] hk]
      exact h _ (List.getElem_mem hk)
  · rw [List.set_eq_of_length_le (by omega)] at hb
    exact h b hb

theorem fillFold_length {α : Type} [Field α] (sval : Nat → Nat → α) :
    ∀ (entries : ActiveNotes) (D c sd L : Nat) (bufs : List (List α)),
      (∀ b ∈ bufs, b.length = L) →
      ∀ b ∈ entries.foldl (fun bs q =>
          bs.set q.1 (fillFrom (noteMix sval q.2 D) c sd 0 (bs.getD q.1 []))) bufs,
        b.length = L := by
  intro entries
  induction entries with
  | nil => intro D c sd L bufs h; simpa using h
  | cons p rest ih =>
    intro D c sd L bufs h
    rw [List.foldl_cons]
    exact ih D c sd L _ (set_fill_length _ c sd L p.1 bufs h)

theorem fillAll_length {α : Type} [Field α] (sval : Nat → Nat → α)
    (active : ActiveNotes) (c sd L : Nat) (bufs : List (List α))
    (h : ∀ b ∈ bufs, b.length = L) :
    ∀ b ∈ fillAll sval active c sd bufs, b.length = L :=
  fillFold_length sval active (max active.length 1) c sd L bufs h

theorem synthGo_length {α : Type} [Field α] (sval : Nat → Nat → α) (td : TimeDivision)
    (rate : Nat) (chIdx : List Nat) :
    ∀ (events : List MIDIEventK) (tickNs cursor : Nat) (active : ActiveNotes)
      (bufs : List (List α)) (L : Nat), (∀ b ∈ bufs, b.length = L) →
      ∀ b ∈ synthGo sval td rate chIdx events tickNs cursor active bufs, b.length = L := by
  intro events
  induction events with
  | nil => intro tickNs cursor active bufs L h; simpa [synthGo] using h
  | cons e rest ih =>
    intro tickNs cursor active bufs L h
    rcases e with ⟨d, k⟩
    have hfill := fillAll_length sval active cursor (d * (rate * tickNs) / 1000000000) L bufs h
    cases k with
    | Channel ce => simpa [synthGo] using ih _ _ _ _ L hfill
    | Meta m =>
      cases m <;> first
        | simpa [synthGo] using hfill
        | simpa [synthGo] using ih _ _ _ _ L hfill

/-! ## Claim C2 -/

/-- Claim C2, amended.  The synthesizer's `bufferLength` is obtained by
applying `.floor()` — not the claimed ceil — to the f32 product of the
sample rate and the total duration in seconds (established by the
counterexample, where that product is exactly 1.5 and the program
returns 1); its exact numeric value is an f32 computation this embedding
does not assert universally.  What holds for every file model, sample
rate, waveform evaluator and hash-set drain order — and is insensitive
to that f32 value, since the program allocates every buffer from the
same `buffer_length` it returns and no write resizes one — is that every
per-(track, channel) buffer has exactly `bufferLength` (the returned
first component) samples, and that in the degenerate zero-track case
`bufferLength` is 0 and the buffer list empty (the total duration is the
zero `Duration` there and `as_secs_f32` of zero is exactly 0.0). -/
theorem c2_buffer_length (α : Type) [Field α] (sval : Nat → Nat → α)
    (drain : List Nat → List Nat) (data : MIDIFileDataK) (rate : Nat) :
    (∀ tb ∈ (createBuffer sval drain data rate).2, ∀ b ∈ tb,
      b.length = (createBuffer sval drain data rate).1) ∧
    (data.tracks = [] → (createBuffer sval drain data rate).1 = 0 ∧
      (createBuffer sval drain data rate).2 = []) := by
  constructor
  · intro tb htb b hb
    show b.length = rate * (MidiMeta.new drain data).total_durationNs / 1000000000
    unfold createBuffer at htb
    dsimp only at htb
    rcases List.mem_map.1 htb with ⟨p, hp, rfl⟩
    refine synthGo_length sval data.time_division rate p.2.channel_idx p.1 _ 0 [] _ _ ?_ b hb
    intro bb hbb
    rcases List.mem_replicate.1 hbb with ⟨-, rfl⟩
    exact List.length_replicate _ _
  · intro h
    unfold createBuffer MidiMeta.new MidiMeta.total_durationNs
    simp [h]

/-- Claim C2, counterexample.  For the half-second single-track example
and sample rate 3 the synthesizer's buffer length is
`floor(3 * 0.5) = 1`, while the claimed `ceil(3 * 0.5)` is 2.  At this
input the program's f32 computations are exact — 0.5 and 1.5 are dyadic
and well inside f32 range — so the exact-arithmetic evaluation below
coincides with the program's f32 result. -/
theorem c2_floor_not_ceil :
    (createBuffer (fun _ _ => (0 : ℚ)) id exampleHalfSecond 3).1 ≠
      Nat.ceil ((3 : ℚ) *
        (((MidiMeta.new id exampleHalfSecond).total_durationNs : ℚ) / 1000000000)) ∧
    (createBuffer (fun _ _ => (0 : ℚ)) id exampleHalfSecond 3).1 = 1 ∧
    Nat.ceil ((3 : ℚ) *
      (((MidiMeta.new id exampleHalfSecond).total_durationNs : ℚ) / 1000000000)) = 2 := by
  have htot : (MidiMeta.new id exampleHalfSecond).total_durationNs = 500000000 := rfl
  have hval : (3 : ℚ) * (((500000000 : ℕ) : ℚ) / 1000000000) = 3 / 2 := by
    push_cast
    norm_num
  have hceil : Nat.ceil ((3 : ℚ) *
      (((MidiMeta.new id exampleHalfSecond).total_durationNs : ℚ) / 1000000000)) = 2 := by
    rw [htot, hval, Nat.ceil_eq_iff (by norm_num)]
    norm_num
  have hlen : (createBuffer (fun _ _ => (0 : ℚ)) id exampleHalfSecond 3).1 = 1 := rfl
  refine ⟨?_, hlen, hceil⟩
  rw [hlen, hceil]
  norm_num

/-- Claim C2, witness: the amended theorem applied to the half-second
example — the single channel buffer of its single track has exactly the
returned buffer length. -/
theorem c2_buffer_length_witness :
    ([(0 : ℚ)] : List ℚ).length = (createBuffer (fun _ _ => (0 : ℚ)) id exampleHalfSecond 3).1 :=
  (c2_buffer_length ℚ (fun _ _ => (0 : ℚ)) id exampleHalfSecond 3).1 [[(0 : ℚ)]] (by decide)
    [(0 : ℚ)] (by decide)

/-! ## Claim C7 -/

theorem zip_map_self {α β : Type} (f : α → β) (l : List α) :
    l.zip (l.map f) = l.map (fun a => (a, f a)) := by
  induction l with
  | nil => rfl
  | cons a t ih => simp [ih]

theorem synthLookupGo_of_occurs (chIdx : List Nat) :
    ∀ events : List MIDIEventK, (∀ c, channelOccurs c events = true → c ∈ chIdx) →
      synthLookupGo chIdx events := by
  intro events
  induction events with
  | nil => intro h; exact trivial
  | cons e rest ih =>
    intro h
    rcases e with ⟨d, k⟩
    cases k with
    | Channel ce =>
      exact ⟨h ce.channel (by simp [channelOccurs]),
        ih (fun c hc => h c (by simp [channelOccurs, hc]))⟩
    | Meta m =>
      cases m <;> first
        | exact trivial
        | exact ih (fun c hc => h c (by simp [channelOccurs, hc]))

/-- Claim C7, amended.  For every file model, sample rate and admissible
hash-set drain order, every channel-event channel the replay looks up —
the channels of channel events before the `EndOfTrack` break — is
present in that track's channel index, so the `channel_index` `expect`
never panics (this part is independent of the program's f32 arithmetic:
the event walk and the channel map involve no floats), and a zero-track
model yields the empty buffer pair `(0, [])` rather than an error.
Rendering can, however, panic on decodable inputs: a zero tick divisor
divides a `Duration` by zero (the counterexample), and the f32 rounding
of `samples_per_tick`, `as_secs_f32` and `buffer_length` can push a
filled sample range past the allocated buffer length (at TicksPerBit
500, rate 125, EndOfTrack delta 131072664 the f32 sample delta is
16384083 but the f32 buffer length 16384082, so the slice fill panics),
so the in-bounds half of the original claim fails on the program and is
not asserted here. -/
theorem c7_lookups_present (drain : List Nat → List Nat)
    (hdrain : ∀ l, (drain l).Perm l) (data : MIDIFileDataK) (rate : Nat) :
    (∀ p ∈ data.tracks.zip (MidiMeta.new drain data).tracks,
      synthLookupGo p.2.channel_idx p.1) ∧
    (∀ (α : Type) [Field α] (sval : Nat → Nat → α),
      data.tracks = [] → createBuffer sval drain data rate = (0, [])) := by
  constructor
  · intro p hp
    have hz : data.tracks.zip (MidiMeta.new drain data).tracks =
        data.tracks.map (fun evs =>
          (evs, (⟨drain (metaTrackFold data.time_division evs
              (data.time_division.tickDurationNs Tempo.default) 0 []).2,
            (metaTrackFold data.time_division evs
              (data.time_division.tickDurationNs Tempo.default) 0 []).1⟩ : MidiTrackMeta))) :=
      zip_map_self _ _
    rw [hz] at hp
    rcases List.mem_map.1 hp with ⟨evs, hevs, rfl⟩
    refine synthLookupGo_of_occurs _ evs ?_
    intro c hc
    exact ((hdrain _).mem_iff).2
      ((metaTrackFold_channels_mem data.time_division evs _ _ [] c).2 (Or.inr hc))
  · intro α _ sval h
    unfold createBuffer MidiMeta.new MidiMeta.total_durationNs
    simp [h]

/-- Claim C7, counterexample.  The decodable model with time-division
word 0 — `TicksPerBit 0` — has a track, so `MidiMeta::new` (reached from
`MidiSynth::new` before any buffer is produced) calls `tick_duration`,
which divides `Duration::from_micros(500000)` by the zero tick count;
Rust `Duration` division is `checked_div(..).expect(..)` and panics.
Rendering therefore fails on a successfully decoded file model,
refuting the claim that it never does. -/
theorem c7_zero_divisor_panics :
    TimeDivision.tickDurationNsChecked exampleZeroDivision.time_division Tempo.default =
      none ∧
    exampleZeroDivision.tracks ≠ [] := by decide

/-- Claim C7, witness: the amended theorem applied to the two-channel
example — the looked-up channels 3 and 5 of its single track are both
present in the track's channel index. -/
theorem c7_lookups_present_witness :
    synthLookupGo ([3, 5] : List Nat)
      [⟨0, .Channel ⟨3, .NoteOn 60 1⟩⟩, ⟨0, .Channel ⟨5, .NoteOn 61 1⟩⟩,
       ⟨0, .Meta .EndOfTrack⟩] :=
  (c7_lookups_present id (fun l => List.Perm.refl l) exampleTwoChannels 44100).1
    ([⟨0, .Channel ⟨3, .NoteOn 60 1⟩⟩, ⟨0, .Channel ⟨5, .NoteOn 61 1⟩⟩,
      ⟨0, .Meta .EndOfTrack⟩], ⟨[3, 5], 0⟩) (by decide)

/-! ## Claim C3 -/

set_option maxHeartbeats 1000000 in
/-- The sample at index 1 of track 0, channel index 0, rendered from the
two-note example at sample rate 1760: both notes of the single channel
entry are summed and divided by `max(active_notes.len(), 1) = 1`, the
number of map entries, not by the channel's note count 2. -/
theorem createBuffer_twoNotes_sample :
    (((createBuffer (sineSample 1760) id exampleTwoNotes 1760).2.getD 0 []).getD 0 []).getD 1 0 =
      (sineSample 1760 69 1 + (sineSample 1760 57 1 + 0)) / ((1 : ℕ) : ℝ) := rfl

theorem sineSample_a4 : sineSample 1760 69 1 = 1 := by
  unfold sineSample MidiNote.frequency
  have e1 : ((((69 : ℕ) : ℝ)) - 69) / 12 = 0 := by norm_num
  rw [e1, Real.rpow_zero]
  have e2 : 2 * Real.pi * (440 * 1 * (((1 : ℕ) : ℝ) / ((1760 : ℕ) : ℝ))) = Real.pi / 2 := by
    push_cast
    ring
  rw [e2, Real.sin_pi_div_two]

theorem sineSample_a3 : sineSample 1760 57 1 = Real.sqrt 2 / 2 := by
  unfold sineSample MidiNote.frequency
  have e1 : ((((57 : ℕ) : ℝ)) - 69) / 12 = ((-1 : ℤ) : ℝ) := by norm_num
  rw [e1, Real.rpow_intCast]
  have e2 : 2 * Real.pi * (440 * (2 : ℝ) ^ (-1 : ℤ) * (((1 : ℕ) : ℝ) / ((1760 : ℕ) : ℝ))) =
      Real.pi / 4 := by
    push_cast
    rw [zpow_neg_one]
    ring
  rw [e2, Real.sin_pi_div_four]

/-- Claim C3, failing-input theorem.  On the two-note example (notes 69
and 57 held simultaneously on channel 0) at sample rate 1760,
the sample written at index 1 is `sin(π/2) + sin(π/4) = 1 + √2/2 ≈ 1.707`
— the sum over the channel's active notes divided by the number of
active-note map entries (1), not the arithmetic mean over the channel's
two active notes (which would be `(1 + √2/2)/2`).  The value exceeds 1,
violating `create_buffer`'s own documented range of -1 to 1, so the
code contradicts its documentation and the claim's mean is the evident
intent. -/
theorem c3_mean_divides_by_entry_count :
    (((createBuffer (sineSample 1760) id exampleTwoNotes 1760).2.getD 0 []).getD 0 []).getD 1 0 =
      1 + Real.sqrt 2 / 2 ∧
    1 < 1 + Real.sqrt 2 / 2 ∧
    1 + Real.sqrt 2 / 2 ≠ (sineSample 1760 69 1 + sineSample 1760 57 1) / 2 := by
  have hs : 0 < Real.sqrt 2 := Real.sqrt_pos.2 (by norm_num)
  refine ⟨?_, by linarith, ?_⟩
  · rw [createBuffer_twoNotes_sample, sineSample_a4, sineSample_a3]
    norm_num
  · rw [sineSample_a4, sineSample_a3]
    intro hcontra
    have h2 : (1 : ℝ) + Real.sqrt 2 / 2 = (1 + Real.sqrt 2 / 2) / 2 := hcontra
    linarith

end Syntezator
